import Mathlib

/-!
Verification development for the LeetCode submission scraper
(`lcus_submission.py`), shallowly embedded in Lean 4.

The embedding covers the submission ingestion pipeline:

* `Submission` mirrors the `Submission` dataclass (title_slug, lang,
  timestamp, status, code);
* `LANG_EXTENSIONS` and `langExtGet` mirror the static extension table and
  the `LANG_EXTENSIONS.get(sub.lang, sub.lang)` lookup;
* `ScraperState` models the observable state a run mutates: the detail
  files on disk (keyed by (title_slug, timestamp), holding the raw record),
  the accepted-export directory (file name to file content), the in-memory
  `accepted_slugs` set, and a trace of the write calls performed (the
  trace is instrumentation recording which writes the code executed);
* `processSubmission` mirrors `LeetCodeScraper._process_submission`:
  the existence check, the detail write, the accepted-and-first-time
  check, the set add, and the accepted-export write.  The `writeOk`
  parameter models whether the accepted-export open/write raises; the
  surrounding `try/except` of the source catches such an exception after
  the set was already mutated, which the `errorLogged` outcome models;
* `runWithOutcomes` folds `processSubmission` over a list of records in
  dispatch order, modelling one run of the pipeline under the
  single-worker (sequential) schedule;
* `fetchLoop` models the pagination loop of
  `LeetCodeScraper.fetch_submissions` over an abstract feed, with a fuel
  parameter standing for the number of iterations we observe;
* `workerStep`/`runSched` give a small-step interleaving semantics for two
  pool workers running `_process_submission` concurrently, at the
  granularity of the statements of the source.
-/

/-- Mirrors the `Submission` dataclass of the source. -/
structure Submission where
  title_slug : String
  lang : String
  timestamp : Nat
  status : String
  code : String
deriving DecidableEq

/-- Mirrors the `LANG_EXTENSIONS` dict of the source (insertion order). -/
def LANG_EXTENSIONS : List (String × String) :=
  [("cpp", "cpp"), ("java", "java"), ("python", "py"), ("python3", "py"),
   ("c", "c"), ("csharp", "cs"), ("javascript", "js"), ("ruby", "rb"),
   ("swift", "swift"), ("golang", "go"), ("scala", "scala"), ("kotlin", "kt"),
   ("rust", "rs"), ("mysql", "sql"), ("bash", "sh")]

/-- Dictionary lookup in `LANG_EXTENSIONS`. -/
def lookupExt (lang : String) : Option String :=
  (LANG_EXTENSIONS.find? (fun p => decide (p.1 = lang))).map Prod.snd

/-- Mirrors `LANG_EXTENSIONS.get(sub.lang, sub.lang)`: the mapped extension
when the language is in the table, the raw language identifier otherwise. -/
def langExtGet (lang : String) : String :=
  match lookupExt lang with
  | some e => e
  | none => lang

/-- The accepted-export file name built at line 300 of the source:
the f-string of slug and extension. -/
def fnameOf (sub : Submission) : String :=
  sub.title_slug ++ "." ++ langExtGet sub.lang

/-- One write call performed by `_process_submission`.  `detailWrite`
records the `json.dump` into `<base>/<slug>/<timestamp>.json`;
`acceptedWrite` records the `f.write(sub.code)` into
`Accepted/<slug>.<ext>`. -/
inductive Event where
  | detailWrite (slug : String) (ts : Nat)
  | acceptedWrite (slug : String) (fname : String) (code : String)
deriving DecidableEq

/-- Classification outcome of one record, as in the specification:
skip (existence check hit), detail-only, detail-and-accepted.
`errorLogged` is the except branch of the source: the accepted-export write
raised after the set add, the error was logged, the record dropped. -/
inductive Outcome where
  | skip
  | detailOnly
  | detailAndAccepted
  | errorLogged
deriving DecidableEq

/-- Observable state of one scraper process plus the trace of writes.
`detailFiles` is the on-disk detail layout keyed by (slug, timestamp);
`acceptedFiles` the accepted directory as an association list from file
name to file content, most recent write first; `accepted_slugs` the
in-memory dedup set of the run; `events` the trace of write calls. -/
structure ScraperState where
  detailFiles : List ((String × Nat) × Submission)
  acceptedFiles : List (String × String)
  accepted_slugs : List String
  events : List Event
deriving DecidableEq

/-- The storage keys of the detail files on disk. -/
def keysOf (fs : List ((String × Nat) × Submission)) : List (String × Nat) :=
  fs.map Prod.fst

/-- Python `set.add`: inserts the element when absent, no duplicates. -/
def addSlug (l : List String) (s : String) : List String :=
  if s ∈ l then l else s :: l

/-- A writer for which every accepted-export write succeeds. -/
def allOk : String → Bool := fun _ => true

/-- Shallow embedding of `LeetCodeScraper._process_submission`
(lines 277-306 of the source):

1. if the detail path for (slug, timestamp) exists, return (skip);
2. otherwise write the detail file;
3. if the status equals the literal `Accepted` and the slug is not in the
   in-memory set, add the slug to the set, then write the code body to
   `Accepted/<slug>.<ext>`.

`writeOk` tells whether the accepted-export open/write succeeds; when it
raises, the outer `except` catches the exception (outcome `errorLogged`)
with the slug already added to the set. -/
def processSubmission (writeOk : String → Bool) (st : ScraperState)
    (sub : Submission) : ScraperState × Outcome :=
  if (sub.title_slug, sub.timestamp) ∈ keysOf st.detailFiles then
    (st, Outcome.skip)
  else
    let st1 : ScraperState :=
      { st with
        detailFiles := ((sub.title_slug, sub.timestamp), sub) :: st.detailFiles
        events := Event.detailWrite sub.title_slug sub.timestamp :: st.events }
    if sub.status = "Accepted" ∧ sub.title_slug ∉ st1.accepted_slugs then
      let st2 : ScraperState :=
        { st1 with accepted_slugs := addSlug st1.accepted_slugs sub.title_slug }
      if writeOk (fnameOf sub) then
        ({ st2 with
           acceptedFiles := (fnameOf sub, sub.code) :: st2.acceptedFiles
           events := Event.acceptedWrite sub.title_slug (fnameOf sub) sub.code
             :: st2.events },
         Outcome.detailAndAccepted)
      else
        (st2, Outcome.errorLogged)
    else
      (st1, Outcome.detailOnly)

/-- One run of the ingestion pipeline over the records in dispatch order
(sequential schedule of the worker pool), returning the final state and
the classification outcome of each record. -/
def runWithOutcomes (writeOk : String → Bool) :
    ScraperState → List Submission → ScraperState × List (Submission × Outcome)
  | st, [] => (st, [])
  | st, sub :: rest =>
    let p := processSubmission writeOk st sub
    let r := runWithOutcomes writeOk p.1 rest
    (r.1, (sub, p.2) :: r.2)

/-- A fresh process over the same disk state: the in-memory set and the
write trace of the run start empty, the files persist. -/
def freshRun (st : ScraperState) : ScraperState :=
  { st with accepted_slugs := [], events := [] }

/-- Reading an accepted-export file back from the accepted directory. -/
def lookupAccepted (fname : String) (files : List (String × String)) :
    Option String :=
  (files.find? (fun p => decide (p.1 = fname))).map Prod.snd

/-- Intermediate state after the detail write only. -/
def detailState (st : ScraperState) (sub : Submission) : ScraperState :=
  { st with
    detailFiles := ((sub.title_slug, sub.timestamp), sub) :: st.detailFiles
    events := Event.detailWrite sub.title_slug sub.timestamp :: st.events }

/-- State after detail write, set add, and a successful accepted write. -/
def acceptState (st : ScraperState) (sub : Submission) : ScraperState :=
  { st with
    detailFiles := ((sub.title_slug, sub.timestamp), sub) :: st.detailFiles
    acceptedFiles := (fnameOf sub, sub.code) :: st.acceptedFiles
    accepted_slugs := addSlug st.accepted_slugs sub.title_slug
    events := Event.acceptedWrite sub.title_slug (fnameOf sub) sub.code
      :: Event.detailWrite sub.title_slug sub.timestamp :: st.events }

/-- State after detail write and set add, when the accepted write raised. -/
def failState (st : ScraperState) (sub : Submission) : ScraperState :=
  { st with
    detailFiles := ((sub.title_slug, sub.timestamp), sub) :: st.detailFiles
    accepted_slugs := addSlug st.accepted_slugs sub.title_slug
    events := Event.detailWrite sub.title_slug sub.timestamp :: st.events }

theorem proc_skip (writeOk : String → Bool) (st : ScraperState)
    (sub : Submission)
    (hk : (sub.title_slug, sub.timestamp) ∈ keysOf st.detailFiles) :
    processSubmission writeOk st sub = (st, Outcome.skip) := by
  simp [processSubmission, hk]

theorem proc_detailOnly (writeOk : String → Bool) (st : ScraperState)
    (sub : Submission)
    (hk : (sub.title_slug, sub.timestamp) ∉ keysOf st.detailFiles)
    (hc : ¬(sub.status = "Accepted" ∧ sub.title_slug ∉ st.accepted_slugs)) :
    processSubmission writeOk st sub = (detailState st sub, Outcome.detailOnly) := by
  simp only [processSubmission, if_neg hk]
  rw [if_neg hc]
  rfl

theorem proc_accept (writeOk : String → Bool) (st : ScraperState)
    (sub : Submission)
    (hk : (sub.title_slug, sub.timestamp) ∉ keysOf st.detailFiles)
    (hst : sub.status = "Accepted")
    (hmem : sub.title_slug ∉ st.accepted_slugs)
    (hw : writeOk (fnameOf sub) = true) :
    processSubmission writeOk st sub = (acceptState st sub, Outcome.detailAndAccepted) := by
  simp only [processSubmission, if_neg hk]
  rw [if_pos (⟨hst, hmem⟩ : _ ∧ _), if_pos hw]
  rfl

theorem proc_fail (writeOk : String → Bool) (st : ScraperState)
    (sub : Submission)
    (hk : (sub.title_slug, sub.timestamp) ∉ keysOf st.detailFiles)
    (hst : sub.status = "Accepted")
    (hmem : sub.title_slug ∉ st.accepted_slugs)
    (hw : writeOk (fnameOf sub) = false) :
    processSubmission writeOk st sub = (failState st sub, Outcome.errorLogged) := by
  simp only [processSubmission, if_neg hk]
  rw [if_pos (⟨hst, hmem⟩ : _ ∧ _), hw]
  rfl

theorem run_nil (writeOk : String → Bool) (st : ScraperState) :
    runWithOutcomes writeOk st [] = (st, []) := rfl

theorem run_cons (writeOk : String → Bool) (st : ScraperState)
    (sub : Submission) (rest : List Submission) :
    runWithOutcomes writeOk st (sub :: rest) =
      ((runWithOutcomes writeOk (processSubmission writeOk st sub).1 rest).1,
       (sub, (processSubmission writeOk st sub).2)
         :: (runWithOutcomes writeOk (processSubmission writeOk st sub).1 rest).2) := rfl

/-- Recognizer for accepted-export write events of a given slug. -/
def isAcceptedEventFor (slug : String) : Event → Bool
  | Event.acceptedWrite sl _ _ => decide (sl = slug)
  | _ => false

/-- The accepted-export writes performed for a given slug, read off the
write trace. -/
def acceptedEventsFor (slug : String) (evs : List Event) : List Event :=
  evs.filter (isAcceptedEventFor slug)

/-- Recognizer for records of a given slug classified detail-and-accepted. -/
def isDAFor (slug : String) (p : Submission × Outcome) : Bool :=
  decide (p.1.title_slug = slug ∧ p.2 = Outcome.detailAndAccepted)

@[simp] theorem keysOf_nil : keysOf [] = [] := rfl

@[simp] theorem keysOf_cons (e : (String × Nat) × Submission)
    (fs : List ((String × Nat) × Submission)) :
    keysOf (e :: fs) = e.1 :: keysOf fs := rfl

@[simp] theorem detailState_detailFiles (st : ScraperState) (sub : Submission) :
    (detailState st sub).detailFiles
      = ((sub.title_slug, sub.timestamp), sub) :: st.detailFiles := rfl

@[simp] theorem detailState_acceptedFiles (st : ScraperState) (sub : Submission) :
    (detailState st sub).acceptedFiles = st.acceptedFiles := rfl

@[simp] theorem detailState_accepted_slugs (st : ScraperState) (sub : Submission) :
    (detailState st sub).accepted_slugs = st.accepted_slugs := rfl

@[simp] theorem detailState_events (st : ScraperState) (sub : Submission) :
    (detailState st sub).events
      = Event.detailWrite sub.title_slug sub.timestamp :: st.events := rfl

@[simp] theorem acceptState_detailFiles (st : ScraperState) (sub : Submission) :
    (acceptState st sub).detailFiles
      = ((sub.title_slug, sub.timestamp), sub) :: st.detailFiles := rfl

@[simp] theorem acceptState_acceptedFiles (st : ScraperState) (sub : Submission) :
    (acceptState st sub).acceptedFiles
      = (fnameOf sub, sub.code) :: st.acceptedFiles := rfl

@[simp] theorem acceptState_accepted_slugs (st : ScraperState) (sub : Submission) :
    (acceptState st sub).accepted_slugs
      = addSlug st.accepted_slugs sub.title_slug := rfl

@[simp] theorem acceptState_events (st : ScraperState) (sub : Submission) :
    (acceptState st sub).events
      = Event.acceptedWrite sub.title_slug (fnameOf sub) sub.code
          :: Event.detailWrite sub.title_slug sub.timestamp :: st.events := rfl

@[simp] theorem failState_detailFiles (st : ScraperState) (sub : Submission) :
    (failState st sub).detailFiles
      = ((sub.title_slug, sub.timestamp), sub) :: st.detailFiles := rfl

@[simp] theorem failState_acceptedFiles (st : ScraperState) (sub : Submission) :
    (failState st sub).acceptedFiles = st.acceptedFiles := rfl

@[simp] theorem failState_accepted_slugs (st : ScraperState) (sub : Submission) :
    (failState st sub).accepted_slugs
      = addSlug st.accepted_slugs sub.title_slug := rfl

@[simp] theorem failState_events (st : ScraperState) (sub : Submission) :
    (failState st sub).events
      = Event.detailWrite sub.title_slug sub.timestamp :: st.events := rfl

@[simp] theorem freshRun_detailFiles (st : ScraperState) :
    (freshRun st).detailFiles = st.detailFiles := rfl

@[simp] theorem freshRun_acceptedFiles (st : ScraperState) :
    (freshRun st).acceptedFiles = st.acceptedFiles := rfl

@[simp] theorem freshRun_accepted_slugs (st : ScraperState) :
    (freshRun st).accepted_slugs = [] := rfl

@[simp] theorem freshRun_events (st : ScraperState) : (freshRun st).events = [] := rfl

theorem acceptedEventsFor_nil (slug : String) : acceptedEventsFor slug [] = [] := rfl

theorem acceptedEventsFor_detail (slug a : String) (b : Nat) (evs : List Event) :
    acceptedEventsFor slug (Event.detailWrite a b :: evs)
      = acceptedEventsFor slug evs := by
  simp [acceptedEventsFor, List.filter_cons, isAcceptedEventFor]

theorem acceptedEventsFor_acc_self (slug f c : String) (evs : List Event) :
    acceptedEventsFor slug (Event.acceptedWrite slug f c :: evs)
      = Event.acceptedWrite slug f c :: acceptedEventsFor slug evs := by
  simp [acceptedEventsFor, List.filter_cons, isAcceptedEventFor]

theorem acceptedEventsFor_acc_ne (slug sl f c : String) (h : sl ≠ slug)
    (evs : List Event) :
    acceptedEventsFor slug (Event.acceptedWrite sl f c :: evs)
      = acceptedEventsFor slug evs := by
  simp [acceptedEventsFor, List.filter_cons, isAcceptedEventFor, h]

theorem mem_addSlug_self (l : List String) (a : String) : a ∈ addSlug l a := by
  by_cases h : a ∈ l <;> simp [addSlug, h]

theorem mem_addSlug_of_mem {l : List String} {a : String} (b : String)
    (h : a ∈ l) : a ∈ addSlug l b := by
  by_cases hb : b ∈ l <;> simp [addSlug, hb, h]

theorem not_mem_addSlug {l : List String} {a b : String} (hne : a ≠ b)
    (h : a ∉ l) : a ∉ addSlug l b := by
  by_cases hb : b ∈ l <;> simp [addSlug, hb, h, hne]

/-- Once a slug is in the in-memory accepted set, the rest of the run never
performs another accepted-export write for it, never classifies another of
its records detail-and-accepted, and keeps it in the set. -/
theorem run_no_more (writeOk : String → Bool) (slug : String) :
    ∀ (subs : List Submission) (st : ScraperState), slug ∈ st.accepted_slugs →
      slug ∈ (runWithOutcomes writeOk st subs).1.accepted_slugs
      ∧ acceptedEventsFor slug (runWithOutcomes writeOk st subs).1.events
          = acceptedEventsFor slug st.events
      ∧ (runWithOutcomes writeOk st subs).2.countP (isDAFor slug) = 0
  | [], st, h => by simp [run_nil, h]
  | sub :: rest, st, h => by
    by_cases hk : (sub.title_slug, sub.timestamp) ∈ keysOf st.detailFiles
    · have hp := proc_skip writeOk st sub hk
      have ih := run_no_more writeOk slug rest st h
      rw [run_cons, hp]
      refine ⟨ih.1, ih.2.1, ?_⟩
      simp [List.countP_cons, isDAFor, ih.2.2]
    · by_cases hc : sub.status = "Accepted" ∧ sub.title_slug ∉ st.accepted_slugs
      · have hne : sub.title_slug ≠ slug := fun he => hc.2 (he ▸ h)
        by_cases hw : writeOk (fnameOf sub) = true
        · have hp := proc_accept writeOk st sub hk hc.1 hc.2 hw
          have hmem : slug ∈ (acceptState st sub).accepted_slugs := by
            simp only [acceptState_accepted_slugs]
            exact mem_addSlug_of_mem _ h
          have ih := run_no_more writeOk slug rest (acceptState st sub) hmem
          rw [run_cons, hp]
          refine ⟨ih.1, ?_, ?_⟩
          · rw [ih.2.1, acceptState_events, acceptedEventsFor_acc_ne slug _ _ _ hne,
              acceptedEventsFor_detail]
          · simp [List.countP_cons, isDAFor, ih.2.2, hne]
        · have hwf : writeOk (fnameOf sub) = false := by
            simpa using hw
          have hp := proc_fail writeOk st sub hk hc.1 hc.2 hwf
          have hmem : slug ∈ (failState st sub).accepted_slugs := by
            simp only [failState_accepted_slugs]
            exact mem_addSlug_of_mem _ h
          have ih := run_no_more writeOk slug rest (failState st sub) hmem
          rw [run_cons, hp]
          refine ⟨ih.1, ?_, ?_⟩
          · rw [ih.2.1, failState_events, acceptedEventsFor_detail]
          · simp [List.countP_cons, isDAFor, ih.2.2]
      · have hp := proc_detailOnly writeOk st sub hk hc
        have hmem : slug ∈ (detailState st sub).accepted_slugs := by
          simpa only [detailState_accepted_slugs] using h
        have ih := run_no_more writeOk slug rest (detailState st sub) hmem
        rw [run_cons, hp]
        refine ⟨ih.1, ?_, ?_⟩
        · rw [ih.2.1, detailState_events, acceptedEventsFor_detail]
        · simp [List.countP_cons, isDAFor, ih.2.2]

/-- C7: a record whose detail-file path for (slug, timestamp) already
exists is skipped entirely: the state is unchanged and the outcome is
skip — in particular no accepted-export write happens and the slug is not
added to the in-memory set, even for an accepted record not yet in the
set, so a restart does not re-detect an already-persisted accepted
problem. -/
theorem C7_persisted_skip (writeOk : String → Bool) (st : ScraperState)
    (sub : Submission)
    (h : (sub.title_slug, sub.timestamp) ∈ keysOf st.detailFiles) :
    processSubmission writeOk st sub = (st, Outcome.skip)
    ∧ (processSubmission writeOk st sub).1.accepted_slugs = st.accepted_slugs
    ∧ acceptedEventsFor sub.title_slug (processSubmission writeOk st sub).1.events
        = acceptedEventsFor sub.title_slug st.events := by
  have hp := proc_skip writeOk st sub h
  exact ⟨hp, by rw [hp], by rw [hp]⟩

/-- Witness for C7: an accepted record whose detail file is on disk and
whose slug is not in the set is skipped with the state unchanged. -/
theorem C7_witness :
    processSubmission allOk
        ⟨[(("s", 1), ⟨"s", "python3", 1, "Accepted", "a"⟩)], [], [], []⟩
        ⟨"s", "python3", 1, "Accepted", "a"⟩
      = (⟨[(("s", 1), ⟨"s", "python3", 1, "Accepted", "a"⟩)], [], [], []⟩,
         Outcome.skip) :=
  (C7_persisted_skip allOk _ _ (by decide)).1

/-- C8: for an accepted first-time record the accepted-export file name is
the slug, a dot, and `LANG_EXTENSIONS.get(lang, lang)`: the mapped
extension for a language in the table, the raw language identifier
otherwise. -/
theorem C8_fallback_extension (writeOk : String → Bool) (st : ScraperState)
    (sub : Submission)
    (hk : (sub.title_slug, sub.timestamp) ∉ keysOf st.detailFiles)
    (hst : sub.status = "Accepted")
    (hmem : sub.title_slug ∉ st.accepted_slugs)
    (hw : writeOk (fnameOf sub) = true) :
    (processSubmission writeOk st sub).1.acceptedFiles.head?
        = some (fnameOf sub, sub.code)
    ∧ fnameOf sub = sub.title_slug ++ "." ++ langExtGet sub.lang
    ∧ (lookupExt sub.lang = none →
        fnameOf sub = sub.title_slug ++ "." ++ sub.lang)
    ∧ (∀ e, lookupExt sub.lang = some e →
        fnameOf sub = sub.title_slug ++ "." ++ e) := by
  rw [proc_accept writeOk st sub hk hst hmem hw]
  refine ⟨rfl, rfl, ?_, ?_⟩
  · intro hnone
    simp [fnameOf, langExtGet, hnone]
  · intro e he
    simp [fnameOf, langExtGet, he]

/-- Witness for C8: the unrecognized language identifier `foobar` yields
the accepted file `s.foobar`; the table language `python3` yields `py`. -/
theorem C8_witness :
    (processSubmission allOk ⟨[], [], [], []⟩
        ⟨"s", "foobar", 1, "Accepted", "c"⟩).1.acceptedFiles.head?
      = some (fnameOf ⟨"s", "foobar", 1, "Accepted", "c"⟩, "c")
    ∧ fnameOf ⟨"s", "foobar", 1, "Accepted", "c"⟩ = "s" ++ "." ++ "foobar"
    ∧ langExtGet "python3" = "py" := by
  have h := C8_fallback_extension allOk ⟨[], [], [], []⟩
    ⟨"s", "foobar", 1, "Accepted", "c"⟩ (by decide) rfl (by decide) rfl
  exact ⟨h.1, h.2.2.1 (by decide), by decide⟩

/-- C9: the accepted-export write stores the code body verbatim: reading
the accepted file back immediately after processing an accepted
first-time record returns exactly the code string of the record. -/
theorem C9_verbatim_roundtrip (writeOk : String → Bool) (st : ScraperState)
    (sub : Submission)
    (hk : (sub.title_slug, sub.timestamp) ∉ keysOf st.detailFiles)
    (hst : sub.status = "Accepted")
    (hmem : sub.title_slug ∉ st.accepted_slugs)
    (hw : writeOk (fnameOf sub) = true) :
    lookupAccepted (fnameOf sub)
        (processSubmission writeOk st sub).1.acceptedFiles = some sub.code := by
  rw [proc_accept writeOk st sub hk hst hmem hw]
  simp [lookupAccepted, acceptState]

/-- Witness for C9: a non-ASCII code body round-trips unchanged. -/
theorem C9_witness :
    lookupAccepted (fnameOf ⟨"s", "python3", 1, "Accepted", "λé日"⟩)
        (processSubmission allOk ⟨[], [], [], []⟩
          ⟨"s", "python3", 1, "Accepted", "λé日"⟩).1.acceptedFiles
      = some "λé日" :=
  C9_verbatim_roundtrip allOk ⟨[], [], [], []⟩
    ⟨"s", "python3", 1, "Accepted", "λé日"⟩ (by decide) rfl (by decide) rfl

/-- C10: the slug is added to the set before the accepted-export write; a
failing write is caught without undoing the add, so the outcome of the record
is the logged-error branch, no accepted file is produced, and no later
accepted record for that slug yields an accepted export for the rest of
the run. -/
theorem C10_failed_accepted_write (writeOk : String → Bool)
    (st : ScraperState) (sub : Submission)
    (hk : (sub.title_slug, sub.timestamp) ∉ keysOf st.detailFiles)
    (hst : sub.status = "Accepted")
    (hmem : sub.title_slug ∉ st.accepted_slugs)
    (hw : writeOk (fnameOf sub) = false) :
    (processSubmission writeOk st sub).2 = Outcome.errorLogged
    ∧ sub.title_slug ∈ (processSubmission writeOk st sub).1.accepted_slugs
    ∧ (processSubmission writeOk st sub).1.acceptedFiles = st.acceptedFiles
    ∧ acceptedEventsFor sub.title_slug
        (processSubmission writeOk st sub).1.events
      = acceptedEventsFor sub.title_slug st.events
    ∧ ∀ (rest : List Submission) (w2 : String → Bool),
        (runWithOutcomes w2 (processSubmission writeOk st sub).1 rest).2.countP
            (isDAFor sub.title_slug) = 0
        ∧ acceptedEventsFor sub.title_slug
            (runWithOutcomes w2 (processSubmission writeOk st sub).1 rest).1.events
          = acceptedEventsFor sub.title_slug st.events := by
  rw [proc_fail writeOk st sub hk hst hmem hw]
  have hself : sub.title_slug ∈ (failState st sub).accepted_slugs := by
    simp only [failState_accepted_slugs]
    exact mem_addSlug_self _ _
  refine ⟨rfl, hself, failState_acceptedFiles .., ?_, ?_⟩
  · rw [failState_events, acceptedEventsFor_detail]
  · intro rest w2
    have h := run_no_more w2 sub.title_slug rest (failState st sub) hself
    exact ⟨h.2.2, by rw [h.2.1, failState_events, acceptedEventsFor_detail]⟩

/-- Witness for C10: a failing accepted write leaves the slug in the set
(outcome logged error), and a later accepted record for the same slug is
never classified detail-and-accepted. -/
theorem C10_witness :
    (processSubmission (fun _ => false) ⟨[], [], [], []⟩
        ⟨"s", "python3", 1, "Accepted", "a"⟩).2 = Outcome.errorLogged
    ∧ "s" ∈ (processSubmission (fun _ => false) ⟨[], [], [], []⟩
        ⟨"s", "python3", 1, "Accepted", "a"⟩).1.accepted_slugs
    ∧ (runWithOutcomes allOk
        (processSubmission (fun _ => false) ⟨[], [], [], []⟩
          ⟨"s", "python3", 1, "Accepted", "a"⟩).1
        [⟨"s", "python3", 2, "Accepted", "b"⟩]).2.countP (isDAFor "s") = 0 := by
  have h := C10_failed_accepted_write (fun _ => false) ⟨[], [], [], []⟩
    ⟨"s", "python3", 1, "Accepted", "a"⟩ (by decide) rfl (by decide) rfl
  exact ⟨h.1, h.2.1, (h.2.2.2.2 [⟨"s", "python3", 2, "Accepted", "b"⟩] allOk).1⟩

theorem run_cons_eq (writeOk : String → Bool) (st st' : ScraperState)
    (o : Outcome) (sub : Submission) (rest : List Submission)
    (h : processSubmission writeOk st sub = (st', o)) :
    runWithOutcomes writeOk st (sub :: rest) =
      ((runWithOutcomes writeOk st' rest).1,
       (sub, o) :: (runWithOutcomes writeOk st' rest).2) := by
  rw [run_cons, h]

/-- Processing one record either leaves the detail layout unchanged or
adds exactly the detail file of the record itself; nothing is ever removed or
overwritten. -/
theorem proc_detailFiles_cases (writeOk : String → Bool) (st : ScraperState)
    (sub : Submission) :
    (processSubmission writeOk st sub).1.detailFiles = st.detailFiles
    ∨ (processSubmission writeOk st sub).1.detailFiles
        = ((sub.title_slug, sub.timestamp), sub) :: st.detailFiles := by
  by_cases hk : (sub.title_slug, sub.timestamp) ∈ keysOf st.detailFiles
  · rw [proc_skip writeOk st sub hk]
    exact Or.inl rfl
  · by_cases hc : sub.status = "Accepted" ∧ sub.title_slug ∉ st.accepted_slugs
    · by_cases hw : writeOk (fnameOf sub) = true
      · rw [proc_accept writeOk st sub hk hc.1 hc.2 hw]
        exact Or.inr rfl
      · rw [proc_fail writeOk st sub hk hc.1 hc.2 (by simpa using hw)]
        exact Or.inr rfl
    · rw [proc_detailOnly writeOk st sub hk hc]
      exact Or.inr rfl

theorem keys_mono_proc (writeOk : String → Bool) (st : ScraperState)
    (sub : Submission) (k : String × Nat) (h : k ∈ keysOf st.detailFiles) :
    k ∈ keysOf (processSubmission writeOk st sub).1.detailFiles := by
  rcases proc_detailFiles_cases writeOk st sub with he | he <;> rw [he]
  · exact h
  · rw [keysOf_cons]
    exact List.mem_cons_of_mem _ h

theorem key_present_proc (writeOk : String → Bool) (st : ScraperState)
    (sub : Submission) :
    (sub.title_slug, sub.timestamp)
      ∈ keysOf (processSubmission writeOk st sub).1.detailFiles := by
  by_cases hk : (sub.title_slug, sub.timestamp) ∈ keysOf st.detailFiles
  · rw [proc_skip writeOk st sub hk]
    exact hk
  · by_cases hc : sub.status = "Accepted" ∧ sub.title_slug ∉ st.accepted_slugs
    · by_cases hw : writeOk (fnameOf sub) = true
      · rw [proc_accept writeOk st sub hk hc.1 hc.2 hw]
        exact List.mem_cons_self _ _
      · rw [proc_fail writeOk st sub hk hc.1 hc.2 (by simpa using hw)]
        exact List.mem_cons_self _ _
    · rw [proc_detailOnly writeOk st sub hk hc]
      exact List.mem_cons_self _ _

theorem keys_mono_run (writeOk : String → Bool) (k : String × Nat) :
    ∀ (subs : List Submission) (st : ScraperState), k ∈ keysOf st.detailFiles →
      k ∈ keysOf (runWithOutcomes writeOk st subs).1.detailFiles
  | [], _, h => by simpa [run_nil] using h
  | sub :: rest, st, h => by
    rw [run_cons]
    exact keys_mono_run writeOk k rest _ (keys_mono_proc writeOk st sub k h)

/-- After a run, the detail file of every processed record is on disk. -/
theorem key_present_run (writeOk : String → Bool) :
    ∀ (subs : List Submission) (st : ScraperState) (sub : Submission),
      sub ∈ subs →
      (sub.title_slug, sub.timestamp)
        ∈ keysOf (runWithOutcomes writeOk st subs).1.detailFiles
  | [], _, _, h => absurd h (List.not_mem_nil _)
  | s :: rest, st, sub, h => by
    rw [run_cons]
    rcases List.mem_cons.mp h with he | hm
    · subst he
      exact keys_mono_run writeOk _ rest _ (key_present_proc writeOk st sub)
    · exact key_present_run writeOk rest _ sub hm

/-- A run over records whose detail files are all already on disk is a
no-op: every record is skipped and the state is unchanged. -/
theorem run_all_skip (writeOk : String → Bool) :
    ∀ (subs : List Submission) (st : ScraperState),
      (∀ s ∈ subs, (s.title_slug, s.timestamp) ∈ keysOf st.detailFiles) →
      runWithOutcomes writeOk st subs
        = (st, subs.map (fun s => (s, Outcome.skip)))
  | [], st, _ => by simp [run_nil]
  | sub :: rest, st, h => by
    rw [run_cons_eq writeOk st st Outcome.skip sub rest
      (proc_skip writeOk st sub (h sub (List.mem_cons_self ..))),
      run_all_skip writeOk rest st (fun s hs => h s (List.mem_cons_of_mem _ hs))]
    simp

/-- C5: running ingestion a second time over the same feed and the disk
state left by the first run is a no-op: every record is skipped by the
existence check, the state (hence every file) is unchanged, and the
second run performs zero write calls. -/
theorem C5_idempotent (w1 w2 : String → Bool) (st : ScraperState)
    (subs : List Submission) :
    runWithOutcomes w2 (freshRun (runWithOutcomes w1 st subs).1) subs
      = (freshRun (runWithOutcomes w1 st subs).1,
         subs.map (fun s => (s, Outcome.skip)))
    ∧ (runWithOutcomes w2 (freshRun (runWithOutcomes w1 st subs).1) subs).1.events
        = [] := by
  have he : runWithOutcomes w2 (freshRun (runWithOutcomes w1 st subs).1) subs
      = (freshRun (runWithOutcomes w1 st subs).1,
         subs.map (fun s => (s, Outcome.skip))) := by
    apply run_all_skip
    intro s hs
    have : (s.title_slug, s.timestamp)
        ∈ keysOf (runWithOutcomes w1 st subs).1.detailFiles :=
      key_present_run w1 subs st s hs
    simpa [freshRun_detailFiles] using this
  exact ⟨he, by rw [he]; simp⟩

/-- Result of one fetch at a given offset, as seen by the loop body of
`fetch_submissions`: a decoded batch (the `submissions_dump` list, with an
absent key modelled as the empty list), a `json.JSONDecodeError`, or a
generic transport/runtime failure. -/
inductive FetchResult where
  | ok (batch : List Submission)
  | errMalformed
  | errTransport
deriving DecidableEq

/-- Side effects of the fetch loop we record: the fetch call issued at an
offset, the courtesy or retry sleeps (`time.sleep(2)` / `time.sleep(5)`),
and the error log line for a failed offset. -/
inductive LoopEvent where
  | fetched (offset : Nat)
  | slept (seconds : Nat)
  | errorLogged (offset : Nat)
deriving DecidableEq

/-- Mirrors the module constant `BATCH_SIZE = 20`. -/
def BATCH_SIZE : Nat := 20

/-- Shallow embedding of the `while True` loop of
`LeetCodeScraper.fetch_submissions` (lines 319-346 of the source) over an
abstract feed indexed by call number and offset.  Each iteration issues
the fetch, sleeps 2 seconds, and then: an empty (or absent)
`submissions_dump` breaks the loop; a non-empty batch advances the offset
by `BATCH_SIZE`; either exception handler logs the error, sleeps 5
seconds, and loops again at the same offset.  The fuel argument bounds
how many iterations we observe: `none` means the loop was still running
after that many iterations; the result lists the events in order.
Per-batch record processing is modelled separately by
`runWithOutcomes`. -/
def fetchLoop (feed : Nat → Nat → FetchResult) :
    Nat → Nat → Nat → Option (List LoopEvent)
  | 0, _, _ => none
  | fuel + 1, k, offset =>
    match feed k offset with
    | FetchResult.ok [] => some [LoopEvent.fetched offset, LoopEvent.slept 2]
    | FetchResult.ok (_ :: _) =>
      (fetchLoop feed fuel (k + 1) (offset + BATCH_SIZE)).map
        (fun t => LoopEvent.fetched offset :: LoopEvent.slept 2 :: t)
    | FetchResult.errMalformed =>
      (fetchLoop feed fuel (k + 1) offset).map
        (fun t => LoopEvent.fetched offset :: LoopEvent.slept 2
          :: LoopEvent.errorLogged offset :: LoopEvent.slept 5 :: t)
    | FetchResult.errTransport =>
      (fetchLoop feed fuel (k + 1) offset).map
        (fun t => LoopEvent.fetched offset :: LoopEvent.slept 2
          :: LoopEvent.errorLogged offset :: LoopEvent.slept 5 :: t)

/-- Number of fetch calls recorded in a trace. -/
def fetchedCount (t : List LoopEvent) : Nat :=
  t.countP (fun e => match e with | LoopEvent.fetched _ => true | _ => false)

/-- Batch non-emptiness test (`if not submissions: break` not taken). -/
def isNonempty : FetchResult → Bool
  | FetchResult.ok (_ :: _) => true
  | _ => false

theorem fetchLoop_empty (feed : Nat → Nat → FetchResult) (k offset fuel : Nat)
    (h : feed k offset = FetchResult.ok []) :
    fetchLoop feed (fuel + 1) k offset
      = some [LoopEvent.fetched offset, LoopEvent.slept 2] := by
  simp [fetchLoop, h]

theorem fetchLoop_nonempty (feed : Nat → Nat → FetchResult)
    (k offset fuel : Nat) (b : Submission) (bs : List Submission)
    (h : feed k offset = FetchResult.ok (b :: bs)) :
    fetchLoop feed (fuel + 1) k offset
      = (fetchLoop feed fuel (k + 1) (offset + BATCH_SIZE)).map
          (fun t => LoopEvent.fetched offset :: LoopEvent.slept 2 :: t) := by
  simp [fetchLoop, h]

theorem fetchLoop_errM (feed : Nat → Nat → FetchResult) (k offset fuel : Nat)
    (h : feed k offset = FetchResult.errMalformed) :
    fetchLoop feed (fuel + 1) k offset
      = (fetchLoop feed fuel (k + 1) offset).map
          (fun t => LoopEvent.fetched offset :: LoopEvent.slept 2
            :: LoopEvent.errorLogged offset :: LoopEvent.slept 5 :: t) := by
  simp [fetchLoop, h]

theorem fetchLoop_errT (feed : Nat → Nat → FetchResult) (k offset fuel : Nat)
    (h : feed k offset = FetchResult.errTransport) :
    fetchLoop feed (fuel + 1) k offset
      = (fetchLoop feed fuel (k + 1) offset).map
          (fun t => LoopEvent.fetched offset :: LoopEvent.slept 2
            :: LoopEvent.errorLogged offset :: LoopEvent.slept 5 :: t) := by
  simp [fetchLoop, h]

theorem fetchedCount_nil : fetchedCount [] = 0 := rfl

theorem fetchedCount_fetched (o : Nat) (t : List LoopEvent) :
    fetchedCount (LoopEvent.fetched o :: t) = fetchedCount t + 1 := by
  simp [fetchedCount, List.countP_cons]

theorem fetchedCount_slept (s : Nat) (t : List LoopEvent) :
    fetchedCount (LoopEvent.slept s :: t) = fetchedCount t := by
  simp [fetchedCount, List.countP_cons]

theorem fetchedCount_append (t1 t2 : List LoopEvent) :
    fetchedCount (t1 ++ t2) = fetchedCount t1 + fetchedCount t2 := by
  simp [fetchedCount, List.countP_append]

/-- For a feed with non-empty batches at the first `m` visited offsets and
an empty batch at offset `offset + m * BATCH_SIZE`, the loop makes exactly
`m + 1` fetch calls, the last one at the empty offset, and stops there. -/
theorem fetchLoop_count (feed : Nat → Nat → FetchResult) :
    ∀ (m k offset fuel : Nat),
      (∀ k2 i, i < m → isNonempty (feed k2 (offset + i * BATCH_SIZE)) = true) →
      (∀ k2, feed k2 (offset + m * BATCH_SIZE) = FetchResult.ok []) →
      m < fuel →
      ∃ t0, fetchLoop feed fuel k offset
          = some (t0 ++ [LoopEvent.fetched (offset + m * BATCH_SIZE),
                         LoopEvent.slept 2])
        ∧ fetchedCount t0 = m
  | 0, k, offset, fuel, _, hemp, hfuel => by
    obtain ⟨f, rfl⟩ : ∃ f, fuel = f + 1 := ⟨fuel - 1, by omega⟩
    have h0 : feed k offset = FetchResult.ok [] := by
      have := hemp k
      simpa using this
    refine ⟨[], ?_, rfl⟩
    rw [fetchLoop_empty feed k offset f h0]
    simp
  | m + 1, k, offset, fuel, hne, hemp, hfuel => by
    obtain ⟨f, rfl⟩ : ∃ f, fuel = f + 1 := ⟨fuel - 1, by omega⟩
    have h0 : isNonempty (feed k offset) = true := by
      have := hne k 0 (Nat.succ_pos m)
      simpa using this
    have hne2 : ∀ k2 i, i < m →
        isNonempty (feed k2 (offset + BATCH_SIZE + i * BATCH_SIZE)) = true := by
      intro k2 i hi
      have := hne k2 (i + 1) (by omega)
      have harith : offset + (i + 1) * BATCH_SIZE
          = offset + BATCH_SIZE + i * BATCH_SIZE := by ring
      rwa [harith] at this
    have hemp2 : ∀ k2,
        feed k2 (offset + BATCH_SIZE + m * BATCH_SIZE) = FetchResult.ok [] := by
      intro k2
      have := hemp k2
      have harith : offset + (m + 1) * BATCH_SIZE
          = offset + BATCH_SIZE + m * BATCH_SIZE := by ring
      rwa [harith] at this
    obtain ⟨t0, ht, hc⟩ :=
      fetchLoop_count feed m (k + 1) (offset + BATCH_SIZE) f hne2 hemp2 (by omega)
    cases hr : feed k offset with
    | ok batch =>
      cases batch with
      | nil =>
        rw [hr] at h0
        simp [isNonempty] at h0
      | cons b bs =>
        rw [fetchLoop_nonempty feed k offset f b bs hr, ht]
        refine ⟨LoopEvent.fetched offset :: LoopEvent.slept 2 :: t0, ?_, ?_⟩
        · have harith : offset + BATCH_SIZE + m * BATCH_SIZE
              = offset + (m + 1) * BATCH_SIZE := by ring
          simp [harith]
        · rw [fetchedCount_fetched, fetchedCount_slept, hc]
    | errMalformed =>
      rw [hr] at h0
      simp [isNonempty] at h0
    | errTransport =>
      rw [hr] at h0
      simp [isNonempty] at h0

/-- Counterexample to C3: a feed with one non-empty batch at offset 0 and
its first empty batch at offset K = 20 (= `BATCH_SIZE`).  The claim
predicts exactly ⌈K / batch-size⌉ = 20 / 20 = 1 fetch call, but the loop
performs 2: the call that observes the empty batch at offset 20 is itself
a fetch call. -/
theorem C3_counterexample :
    fetchLoop
        (fun _ o => if o = 0
          then FetchResult.ok [⟨"s", "cpp", 1, "Accepted", "c"⟩]
          else FetchResult.ok [])
        3 0 0
      = some [LoopEvent.fetched 0, LoopEvent.slept 2,
              LoopEvent.fetched 20, LoopEvent.slept 2]
    ∧ fetchedCount [LoopEvent.fetched 0, LoopEvent.slept 2,
        LoopEvent.fetched 20, LoopEvent.slept 2] = 2
    ∧ 20 / BATCH_SIZE = 1
    ∧ fetchedCount [LoopEvent.fetched 0, LoopEvent.slept 2,
        LoopEvent.fetched 20, LoopEvent.slept 2] ≠ 20 / BATCH_SIZE := by
  refine ⟨?_, by decide, by decide, by decide⟩
  decide

/-- C3 (amended): for a feed with non-empty batches at offsets
0, BATCH_SIZE, ..., (m-1)·BATCH_SIZE and an empty `submissions_dump` first
at offset K = m·BATCH_SIZE, the loop starts at offset 0, advances by
`BATCH_SIZE` after each non-empty batch, performs exactly
⌈K / BATCH_SIZE⌉ + 1 = m + 1 fetch calls — m returning non-empty batches
plus the final call that observes the empty batch at offset K — and
terminates exactly at that observation. -/
theorem C3_pagination (feed : Nat → Nat → FetchResult) (m fuel : Nat)
    (hne : ∀ k i, i < m → isNonempty (feed k (i * BATCH_SIZE)) = true)
    (hemp : ∀ k, feed k (m * BATCH_SIZE) = FetchResult.ok [])
    (hfuel : m < fuel) :
    ∃ t0, fetchLoop feed fuel 0 0
        = some (t0 ++ [LoopEvent.fetched (m * BATCH_SIZE), LoopEvent.slept 2])
      ∧ fetchedCount t0 = m
      ∧ fetchedCount (t0 ++ [LoopEvent.fetched (m * BATCH_SIZE),
          LoopEvent.slept 2]) = m + 1 := by
  obtain ⟨t0, ht, hc⟩ := fetchLoop_count feed m 0 0 fuel
    (by intro k2 i hi; simpa using hne k2 i hi)
    (by intro k2; simpa using hemp k2) hfuel
  refine ⟨t0, by simpa using ht, hc, ?_⟩
  rw [fetchedCount_append, hc]
  rfl

/-- Witness for C3 (amended): two non-empty batches (offsets 0 and 20),
empty at offset 40; the loop makes 3 fetch calls and stops at offset 40. -/
theorem C3_witness :
    ∃ t0, fetchLoop
        (fun _ o => if o < 40
          then FetchResult.ok [⟨"s", "cpp", 1, "Accepted", "c"⟩]
          else FetchResult.ok [])
        3 0 0
      = some (t0 ++ [LoopEvent.fetched (2 * BATCH_SIZE), LoopEvent.slept 2])
      ∧ fetchedCount t0 = 2
      ∧ fetchedCount (t0 ++ [LoopEvent.fetched (2 * BATCH_SIZE),
          LoopEvent.slept 2]) = 3 :=
  C3_pagination
    (fun _ o => if o < 40
      then FetchResult.ok [⟨"s", "cpp", 1, "Accepted", "c"⟩]
      else FetchResult.ok [])
    2 3
    (by intro k i hi; interval_cases i <;> simp [isNonempty, BATCH_SIZE])
    (by intro k; rfl)
    (by omega)

/-- A feed that keeps failing at one offset keeps the loop there for ever:
no amount of fuel makes it return. -/
theorem fetchLoop_err_forever (feed : Nat → Nat → FetchResult) (offset : Nat)
    (h : ∀ k, feed k offset = FetchResult.errMalformed
      ∨ feed k offset = FetchResult.errTransport) :
    ∀ (fuel k : Nat), fetchLoop feed fuel k offset = none
  | 0, _ => rfl
  | fuel + 1, k => by
    rcases h k with hM | hT
    · rw [fetchLoop_errM feed k offset fuel hM,
        fetchLoop_err_forever feed offset h fuel (k + 1)]
      rfl
    · rw [fetchLoop_errT feed k offset fuel hT,
        fetchLoop_err_forever feed offset h fuel (k + 1)]
      rfl

/-- C4: when the fetch at an offset yields a malformed (non-JSON) response
or a generic transport/runtime failure, the iteration logs the error,
sleeps the fixed 5-second interval, and the loop continues at the very
same offset (the offset is not advanced and the error does not break the
loop); and when the failure persists at that offset, the loop retries for
ever — no fuel bound makes it terminate, there is no retry ceiling. -/
theorem C4_retry_same_offset (feed : Nat → Nat → FetchResult)
    (k offset fuel : Nat)
    (h : feed k offset = FetchResult.errMalformed
      ∨ feed k offset = FetchResult.errTransport) :
    fetchLoop feed (fuel + 1) k offset
      = (fetchLoop feed fuel (k + 1) offset).map
          (fun t => LoopEvent.fetched offset :: LoopEvent.slept 2
            :: LoopEvent.errorLogged offset :: LoopEvent.slept 5 :: t)
    ∧ ((∀ k2, feed k2 offset = FetchResult.errMalformed
          ∨ feed k2 offset = FetchResult.errTransport) →
        ∀ fuel2 k2, fetchLoop feed fuel2 k2 offset = none) := by
  constructor
  · rcases h with hM | hT
    · exact fetchLoop_errM feed k offset fuel hM
    · exact fetchLoop_errT feed k offset fuel hT
  · intro hall fuel2 k2
    exact fetchLoop_err_forever feed offset hall fuel2 k2

/-- Witness for C4: a permanently failing feed is retried at offset 0 with
the error logged and the 5-second sleep, and never terminates. -/
theorem C4_witness :
    fetchLoop (fun _ _ => FetchResult.errTransport) 4 0 0
      = (fetchLoop (fun _ _ => FetchResult.errTransport) 3 1 0).map
          (fun t => LoopEvent.fetched 0 :: LoopEvent.slept 2
            :: LoopEvent.errorLogged 0 :: LoopEvent.slept 5 :: t)
    ∧ fetchLoop (fun _ _ => FetchResult.errTransport) 1000 0 0 = none := by
  have h := C4_retry_same_offset (fun _ _ => FetchResult.errTransport) 0 0 3
    (Or.inr rfl)
  exact ⟨h.1, h.2 (fun _ => Or.inr rfl) 1000 0⟩

/-- The first record of the list that the run will export as accepted for
the given slug: scanning in dispatch order with the current set of detail
keys, a record already on disk is skipped (keys unchanged), the first
fresh record that is accepted and carries the slug is the trigger, and
any other fresh record adds its detail key and the scan continues. -/
def firstTrigger (slug : String) : List (String × Nat) → List Submission → Option Submission
  | _, [] => none
  | keys, s :: rest =>
    if (s.title_slug, s.timestamp) ∈ keys then firstTrigger slug keys rest
    else if s.status = "Accepted" ∧ s.title_slug = slug then some s
    else firstTrigger slug ((s.title_slug, s.timestamp) :: keys) rest

/-- The accepted-export write a trigger record produces, if any. -/
def ftEvents : Option Submission → List Event
  | some r => [Event.acceptedWrite r.title_slug (fnameOf r) r.code]
  | none => []

theorem firstTrigger_skip (slug : String) {keys : List (String × Nat)}
    {s : Submission} (rest : List Submission)
    (h : (s.title_slug, s.timestamp) ∈ keys) :
    firstTrigger slug keys (s :: rest) = firstTrigger slug keys rest := by
  simp [firstTrigger, h]

theorem firstTrigger_hit (slug : String) {keys : List (String × Nat)}
    {s : Submission} (rest : List Submission)
    (hk : (s.title_slug, s.timestamp) ∉ keys)
    (hc : s.status = "Accepted" ∧ s.title_slug = slug) :
    firstTrigger slug keys (s :: rest) = some s := by
  simp only [firstTrigger, if_neg hk]
  rw [if_pos hc]

theorem firstTrigger_miss (slug : String) {keys : List (String × Nat)}
    {s : Submission} (rest : List Submission)
    (hk : (s.title_slug, s.timestamp) ∉ keys)
    (hc : ¬(s.status = "Accepted" ∧ s.title_slug = slug)) :
    firstTrigger slug keys (s :: rest)
      = firstTrigger slug ((s.title_slug, s.timestamp) :: keys) rest := by
  simp only [firstTrigger, if_neg hk]
  rw [if_neg hc]

/-- Main characterization of a run with all accepted writes succeeding:
for a slug not yet in the in-memory set, the slug ends in the set iff a
trigger record exists, exactly the accepted-export write of the trigger is
performed for the slug, exactly one record is classified
detail-and-accepted for the slug when a trigger exists (none otherwise),
and any record so classified is the trigger. -/
theorem run_first_trigger (slug : String) :
    ∀ (subs : List Submission) (st : ScraperState), slug ∉ st.accepted_slugs →
      (slug ∈ (runWithOutcomes allOk st subs).1.accepted_slugs
        ↔ (firstTrigger slug (keysOf st.detailFiles) subs).isSome = true)
      ∧ acceptedEventsFor slug (runWithOutcomes allOk st subs).1.events
          = ftEvents (firstTrigger slug (keysOf st.detailFiles) subs)
            ++ acceptedEventsFor slug st.events
      ∧ (runWithOutcomes allOk st subs).2.countP (isDAFor slug)
          = (if (firstTrigger slug (keysOf st.detailFiles) subs).isSome then 1 else 0)
      ∧ ∀ p ∈ (runWithOutcomes allOk st subs).2, isDAFor slug p = true →
          firstTrigger slug (keysOf st.detailFiles) subs = some p.1
  | [], st, h => by
    simp [run_nil, firstTrigger, ftEvents, h]
  | sub :: rest, st, h => by
    by_cases hk : (sub.title_slug, sub.timestamp) ∈ keysOf st.detailFiles
    · rw [run_cons_eq allOk st st Outcome.skip sub rest (proc_skip allOk st sub hk),
        firstTrigger_skip slug rest hk]
      have ih := run_first_trigger slug rest st h
      refine ⟨ih.1, ih.2.1, ?_, ?_⟩
      · rw [List.countP_cons]
        simp only [isDAFor]
        simp [ih.2.2.1]
      · intro p hp hda
        rcases List.mem_cons.mp hp with he | hmem
        · subst he
          simp [isDAFor] at hda
        · exact ih.2.2.2 p hmem hda
    · by_cases hm : sub.title_slug = slug
      · by_cases hst : sub.status = "Accepted"
        · subst hm
          have hp := proc_accept allOk st sub hk hst h rfl
          rw [run_cons_eq allOk st _ _ sub rest hp,
            firstTrigger_hit sub.title_slug rest hk ⟨hst, rfl⟩]
          have hsel : sub.title_slug ∈ (acceptState st sub).accepted_slugs := by
            rw [acceptState_accepted_slugs]
            exact mem_addSlug_self _ _
          have hnm := run_no_more allOk sub.title_slug rest (acceptState st sub) hsel
          refine ⟨?_, ?_, ?_, ?_⟩
          · simp [hnm.1]
          · rw [hnm.2.1, acceptState_events, acceptedEventsFor_acc_self,
              acceptedEventsFor_detail]
            simp [ftEvents]
          · rw [List.countP_cons]
            simp [isDAFor, hnm.2.2]
          · intro p hp2 hda
            rcases List.mem_cons.mp hp2 with he | hmem
            · subst he
              rfl
            · exact absurd hda (by
                have := List.countP_eq_zero.mp hnm.2.2 p hmem
                simpa using this)
        · have hc : ¬(sub.status = "Accepted" ∧ sub.title_slug ∉ st.accepted_slugs) :=
            fun hcc => hst hcc.1
          have hp := proc_detailOnly allOk st sub hk hc
          rw [run_cons_eq allOk st _ _ sub rest hp,
            firstTrigger_miss slug rest hk (fun hcc => hst hcc.1)]
          have ih := run_first_trigger slug rest (detailState st sub)
            (by rwa [detailState_accepted_slugs])
          have hkeys : keysOf (detailState st sub).detailFiles
              = (sub.title_slug, sub.timestamp) :: keysOf st.detailFiles := by
            rw [detailState_detailFiles, keysOf_cons]
          rw [hkeys] at ih
          refine ⟨ih.1, ?_, ?_, ?_⟩
          · rw [ih.2.1, detailState_events, acceptedEventsFor_detail]
          · rw [List.countP_cons]
            simp only [isDAFor]
            simp [ih.2.2.1]
          · intro p hp2 hda
            rcases List.mem_cons.mp hp2 with he | hmem
            · subst he
              simp [isDAFor] at hda
            · exact ih.2.2.2 p hmem hda
      · by_cases hcond : sub.status = "Accepted" ∧ sub.title_slug ∉ st.accepted_slugs
        · have hp := proc_accept allOk st sub hk hcond.1 hcond.2 rfl
          rw [run_cons_eq allOk st _ _ sub rest hp,
            firstTrigger_miss slug rest hk (fun hcc => hm hcc.2)]
          have hns : slug ∉ (acceptState st sub).accepted_slugs := by
            rw [acceptState_accepted_slugs]
            exact not_mem_addSlug (fun he => hm he.symm) h
          have ih := run_first_trigger slug rest (acceptState st sub) hns
          have hkeys : keysOf (acceptState st sub).detailFiles
              = (sub.title_slug, sub.timestamp) :: keysOf st.detailFiles := by
            rw [acceptState_detailFiles, keysOf_cons]
          rw [hkeys] at ih
          refine ⟨ih.1, ?_, ?_, ?_⟩
          · rw [ih.2.1, acceptState_events,
              acceptedEventsFor_acc_ne slug _ _ _ hm, acceptedEventsFor_detail]
          · rw [List.countP_cons]
            simp only [isDAFor]
            simp [hm, ih.2.2.1]
          · intro p hp2 hda
            rcases List.mem_cons.mp hp2 with he | hmem
            · subst he
              simp [isDAFor, hm] at hda
            · exact ih.2.2.2 p hmem hda
        · have hp := proc_detailOnly allOk st sub hk hcond
          rw [run_cons_eq allOk st _ _ sub rest hp,
            firstTrigger_miss slug rest hk (fun hcc => hm hcc.2)]
          have ih := run_first_trigger slug rest (detailState st sub)
            (by rwa [detailState_accepted_slugs])
          have hkeys : keysOf (detailState st sub).detailFiles
              = (sub.title_slug, sub.timestamp) :: keysOf st.detailFiles := by
            rw [detailState_detailFiles, keysOf_cons]
          rw [hkeys] at ih
          refine ⟨ih.1, ?_, ?_, ?_⟩
          · rw [ih.2.1, detailState_events, acceptedEventsFor_detail]
          · rw [List.countP_cons]
            simp only [isDAFor]
            simp [ih.2.2.1]
          · intro p hp2 hda
            rcases List.mem_cons.mp hp2 with he | hmem
            · subst he
              simp [isDAFor] at hda
            · exact ih.2.2.2 p hmem hda

/-- With every accepted write succeeding, no record ends in the
logged-error branch: outcomes are skip, detail-only or
detail-and-accepted. -/
theorem run_allOk_no_fail :
    ∀ (subs : List Submission) (st : ScraperState) (p : Submission × Outcome),
      p ∈ (runWithOutcomes allOk st subs).2 → p.2 ≠ Outcome.errorLogged
  | [], st, p, hp => absurd hp (by simp [run_nil])
  | sub :: rest, st, p, hp => by
    by_cases hk : (sub.title_slug, sub.timestamp) ∈ keysOf st.detailFiles
    · rw [run_cons_eq allOk st st Outcome.skip sub rest
        (proc_skip allOk st sub hk)] at hp
      rcases List.mem_cons.mp hp with he | hmem
      · subst he
        simp
      · exact run_allOk_no_fail rest st p hmem
    · by_cases hc : sub.status = "Accepted" ∧ sub.title_slug ∉ st.accepted_slugs
      · rw [run_cons_eq allOk st _ _ sub rest
          (proc_accept allOk st sub hk hc.1 hc.2 rfl)] at hp
        rcases List.mem_cons.mp hp with he | hmem
        · subst he
          simp
        · exact run_allOk_no_fail rest _ p hmem
      · rw [run_cons_eq allOk st _ _ sub rest
          (proc_detailOnly allOk st sub hk hc)] at hp
        rcases List.mem_cons.mp hp with he | hmem
        · subst he
          simp
        · exact run_allOk_no_fail rest _ p hmem

/-- Counterexample to C1 as stated: when the feed delivers the same
accepted record twice (same slug and timestamp), the second accepted
record is classified skip by the existence check, not detail-only as the
claim asserts of all later accepted records. -/
theorem C1_counterexample :
    (runWithOutcomes allOk ⟨[], [], [], []⟩
        [⟨"s", "python3", 1, "Accepted", "a"⟩,
         ⟨"s", "python3", 1, "Accepted", "a"⟩]).2
      = [(⟨"s", "python3", 1, "Accepted", "a"⟩, Outcome.detailAndAccepted),
         (⟨"s", "python3", 1, "Accepted", "a"⟩, Outcome.skip)]
    ∧ Outcome.skip ≠ Outcome.detailOnly := by
  refine ⟨?_, by decide⟩
  decide

/-- C1 (amended): per run and slug, the accepted-export writes performed
are exactly those of the first trigger record (the first accepted record
for the slug whose detail file is not already on disk) — hence at most
one; exactly one record of the run is classified detail-and-accepted for
the slug when a trigger exists (none otherwise), any record so classified
is the trigger, and every other accepted record of the slug is classified
detail-only or skip (skip when its own detail file is already on disk). -/
theorem C1_dedup (st0 : ScraperState) (subs : List Submission) (slug : String) :
    acceptedEventsFor slug (runWithOutcomes allOk (freshRun st0) subs).1.events
      = ftEvents (firstTrigger slug (keysOf st0.detailFiles) subs)
    ∧ (acceptedEventsFor slug
        (runWithOutcomes allOk (freshRun st0) subs).1.events).length ≤ 1
    ∧ (runWithOutcomes allOk (freshRun st0) subs).2.countP (isDAFor slug)
        = (if (firstTrigger slug (keysOf st0.detailFiles) subs).isSome
           then 1 else 0)
    ∧ (∀ p ∈ (runWithOutcomes allOk (freshRun st0) subs).2,
        isDAFor slug p = true →
        firstTrigger slug (keysOf st0.detailFiles) subs = some p.1)
    ∧ (∀ p ∈ (runWithOutcomes allOk (freshRun st0) subs).2,
        p.1.title_slug = slug → p.2 ≠ Outcome.detailAndAccepted →
        p.2 = Outcome.skip ∨ p.2 = Outcome.detailOnly) := by
  have h := run_first_trigger slug subs (freshRun st0) (by simp)
  rw [freshRun_detailFiles] at h
  have hev : acceptedEventsFor slug (runWithOutcomes allOk (freshRun st0) subs).1.events
      = ftEvents (firstTrigger slug (keysOf st0.detailFiles) subs) := by
    rw [h.2.1, freshRun_events, acceptedEventsFor_nil, List.append_nil]
  refine ⟨hev, ?_, h.2.2.1, h.2.2.2, ?_⟩
  · rw [hev]
    cases firstTrigger slug (keysOf st0.detailFiles) subs <;> simp [ftEvents]
  · intro p hp h1 h2
    have hne := run_allOk_no_fail subs (freshRun st0) p hp
    cases hout : p.2 with
    | skip => exact Or.inl rfl
    | detailOnly => exact Or.inr rfl
    | detailAndAccepted => exact absurd hout h2
    | errorLogged => exact absurd hout hne

/-- Witness for C1 (amended): a run over two accepted records for slug
`s` (different timestamps) performs exactly one accepted-export write, the
first record is the trigger, and the second accepted record is classified
detail-only. -/
theorem C1_witness :
    acceptedEventsFor "s" (runWithOutcomes allOk (freshRun ⟨[], [], [], []⟩)
        [⟨"s", "python3", 1, "Accepted", "a"⟩,
         ⟨"s", "cpp", 2, "Accepted", "b"⟩]).1.events
      = ftEvents (firstTrigger "s"
          (keysOf ((⟨[], [], [], []⟩ : ScraperState)).detailFiles)
          [⟨"s", "python3", 1, "Accepted", "a"⟩,
           ⟨"s", "cpp", 2, "Accepted", "b"⟩])
    ∧ (runWithOutcomes allOk (freshRun ⟨[], [], [], []⟩)
        [⟨"s", "python3", 1, "Accepted", "a"⟩,
         ⟨"s", "cpp", 2, "Accepted", "b"⟩]).2.countP (isDAFor "s") = 1
    ∧ (Outcome.detailOnly = Outcome.skip
        ∨ Outcome.detailOnly = Outcome.detailOnly) := by
  have h := C1_dedup ⟨[], [], [], []⟩
    [⟨"s", "python3", 1, "Accepted", "a"⟩, ⟨"s", "cpp", 2, "Accepted", "b"⟩] "s"
  refine ⟨h.1, ?_, ?_⟩
  · rw [h.2.2.1]
    decide
  · exact h.2.2.2.2 (⟨"s", "cpp", 2, "Accepted", "b"⟩, Outcome.detailOnly)
      (by decide) (by decide) (by decide)

/-- A file in the accepted directory belongs to a problem identifier when
its name starts with the identifier followed by a dot — the shape
the f-string of slug and extension produced by the accepted-export writer. -/
def slugOwns (slug fname : String) : Bool :=
  List.isPrefixOf (slug ++ ".").data fname.data

/-- The accepted-directory entries belonging to a problem identifier. -/
def acceptedFilesForSlug (slug : String) (files : List (String × String)) :
    List (String × String) :=
  files.filter (fun p => slugOwns slug p.1)

/-- The accepted-directory entry a trigger record creates, if any. -/
def ftFile : Option Submission → List (String × String)
  | some r => [(fnameOf r, r.code)]
  | none => []

theorem isPrefixOf_append_self (l t : List Char) :
    List.isPrefixOf l (l ++ t) = true := by
  induction l with
  | nil => simp [List.isPrefixOf]
  | cons a l ih => simp [List.isPrefixOf, ih]

theorem slugOwns_fnameOf (slug : String) (sub : Submission)
    (h : sub.title_slug = slug) : slugOwns slug (fnameOf sub) = true := by
  have he : fnameOf sub = (slug ++ ".") ++ langExtGet sub.lang := by
    rw [fnameOf, h]
  rw [slugOwns, he, String.data_append]
  exact isPrefixOf_append_self _ _

theorem filesForSlug_cons_own (slug f c : String)
    (files : List (String × String)) (h : slugOwns slug f = true) :
    acceptedFilesForSlug slug ((f, c) :: files)
      = (f, c) :: acceptedFilesForSlug slug files := by
  simp [acceptedFilesForSlug, List.filter_cons, h]

theorem filesForSlug_cons_not (slug f c : String)
    (files : List (String × String)) (h : slugOwns slug f = false) :
    acceptedFilesForSlug slug ((f, c) :: files)
      = acceptedFilesForSlug slug files := by
  simp [acceptedFilesForSlug, List.filter_cons, h]

/-- Once the slug is in the in-memory set, the rest of the run leaves the
accepted-directory entries of the slug unchanged, provided no other slug of the
remaining records produces a file name owned by this slug. -/
theorem run_files_no_more (writeOk : String → Bool) (slug : String) :
    ∀ (subs : List Submission) (st : ScraperState), slug ∈ st.accepted_slugs →
      (∀ s ∈ subs, s.title_slug = slug ∨ slugOwns slug (fnameOf s) = false) →
      acceptedFilesForSlug slug (runWithOutcomes writeOk st subs).1.acceptedFiles
        = acceptedFilesForSlug slug st.acceptedFiles
  | [], st, _, _ => by simp [run_nil]
  | sub :: rest, st, h, hcoll => by
    have hcr : ∀ s ∈ rest, s.title_slug = slug ∨ slugOwns slug (fnameOf s) = false :=
      fun s hs => hcoll s (List.mem_cons_of_mem _ hs)
    by_cases hk : (sub.title_slug, sub.timestamp) ∈ keysOf st.detailFiles
    · rw [run_cons_eq writeOk st st Outcome.skip sub rest (proc_skip writeOk st sub hk)]
      exact run_files_no_more writeOk slug rest st h hcr
    · by_cases hc : sub.status = "Accepted" ∧ sub.title_slug ∉ st.accepted_slugs
      · have hne : sub.title_slug ≠ slug := fun he => hc.2 (he ▸ h)
        have hown : slugOwns slug (fnameOf sub) = false := by
          rcases hcoll sub (List.mem_cons_self ..) with he | hf
          · exact absurd he hne
          · exact hf
        by_cases hw : writeOk (fnameOf sub) = true
        · rw [run_cons_eq writeOk st _ _ sub rest
            (proc_accept writeOk st sub hk hc.1 hc.2 hw)]
          have ih := run_files_no_more writeOk slug rest (acceptState st sub)
            (by rw [acceptState_accepted_slugs]; exact mem_addSlug_of_mem _ h) hcr
          rw [ih, acceptState_acceptedFiles, filesForSlug_cons_not _ _ _ _ hown]
        · rw [run_cons_eq writeOk st _ _ sub rest
            (proc_fail writeOk st sub hk hc.1 hc.2 (by simpa using hw))]
          have ih := run_files_no_more writeOk slug rest (failState st sub)
            (by rw [failState_accepted_slugs]; exact mem_addSlug_of_mem _ h) hcr
          rw [ih, failState_acceptedFiles]
      · rw [run_cons_eq writeOk st _ _ sub rest (proc_detailOnly writeOk st sub hk hc)]
        have ih := run_files_no_more writeOk slug rest (detailState st sub)
          (by rwa [detailState_accepted_slugs]) hcr
        rw [ih, detailState_acceptedFiles]

/-- For a slug not yet in the set, a run (all accepted writes succeeding)
adds to the accepted-directory entries of the slug exactly the file of the
trigger record, provided no other slug of the records produces a file
name owned by this slug. -/
theorem run_files_first (slug : String) :
    ∀ (subs : List Submission) (st : ScraperState), slug ∉ st.accepted_slugs →
      (∀ s ∈ subs, s.title_slug = slug ∨ slugOwns slug (fnameOf s) = false) →
      acceptedFilesForSlug slug (runWithOutcomes allOk st subs).1.acceptedFiles
        = ftFile (firstTrigger slug (keysOf st.detailFiles) subs)
          ++ acceptedFilesForSlug slug st.acceptedFiles
  | [], st, _, _ => by simp [run_nil, firstTrigger, ftFile]
  | sub :: rest, st, h, hcoll => by
    have hcr : ∀ s ∈ rest, s.title_slug = slug ∨ slugOwns slug (fnameOf s) = false :=
      fun s hs => hcoll s (List.mem_cons_of_mem _ hs)
    by_cases hk : (sub.title_slug, sub.timestamp) ∈ keysOf st.detailFiles
    · rw [run_cons_eq allOk st st Outcome.skip sub rest (proc_skip allOk st sub hk),
        firstTrigger_skip slug rest hk]
      exact run_files_first slug rest st h hcr
    · by_cases hm : sub.title_slug = slug
      · by_cases hst : sub.status = "Accepted"
        · have hp := proc_accept allOk st sub hk hst (hm ▸ h) rfl
          rw [run_cons_eq allOk st _ _ sub rest hp,
            firstTrigger_hit slug rest hk ⟨hst, hm⟩]
          have hnm := run_files_no_more allOk slug rest (acceptState st sub)
            (by rw [acceptState_accepted_slugs, ← hm]; exact mem_addSlug_self _ _) hcr
          rw [hnm, acceptState_acceptedFiles,
            filesForSlug_cons_own _ _ _ _ (slugOwns_fnameOf slug sub hm)]
          rfl
        · have hc : ¬(sub.status = "Accepted" ∧ sub.title_slug ∉ st.accepted_slugs) :=
            fun hcc => hst hcc.1
          rw [run_cons_eq allOk st _ _ sub rest (proc_detailOnly allOk st sub hk hc),
            firstTrigger_miss slug rest hk (fun hcc => hst hcc.1)]
          have ih := run_files_first slug rest (detailState st sub)
            (by rwa [detailState_accepted_slugs]) hcr
          have hkeys : keysOf (detailState st sub).detailFiles
              = (sub.title_slug, sub.timestamp) :: keysOf st.detailFiles := by
            rw [detailState_detailFiles, keysOf_cons]
          rw [hkeys] at ih
          rw [ih, detailState_acceptedFiles]
      · by_cases hcond : sub.status = "Accepted" ∧ sub.title_slug ∉ st.accepted_slugs
        · have hown : slugOwns slug (fnameOf sub) = false := by
            rcases hcoll sub (List.mem_cons_self ..) with he | hf
            · exact absurd he hm
            · exact hf
          have hp := proc_accept allOk st sub hk hcond.1 hcond.2 rfl
          rw [run_cons_eq allOk st _ _ sub rest hp,
            firstTrigger_miss slug rest hk (fun hcc => hm hcc.2)]
          have ih := run_files_first slug rest (acceptState st sub)
            (by rw [acceptState_accepted_slugs]
                exact not_mem_addSlug (fun he => hm he.symm) h) hcr
          have hkeys : keysOf (acceptState st sub).detailFiles
              = (sub.title_slug, sub.timestamp) :: keysOf st.detailFiles := by
            rw [acceptState_detailFiles, keysOf_cons]
          rw [hkeys] at ih
          rw [ih, acceptState_acceptedFiles, filesForSlug_cons_not _ _ _ _ hown]
        · rw [run_cons_eq allOk st _ _ sub rest (proc_detailOnly allOk st sub hk hcond),
            firstTrigger_miss slug rest hk (fun hcc => hm hcc.2)]
          have ih := run_files_first slug rest (detailState st sub)
            (by rwa [detailState_accepted_slugs]) hcr
          have hkeys : keysOf (detailState st sub).detailFiles
              = (sub.title_slug, sub.timestamp) :: keysOf st.detailFiles := by
            rw [detailState_detailFiles, keysOf_cons]
          rw [hkeys] at ih
          rw [ih, detailState_acceptedFiles]

/-- Counterexample to C6 as stated: across two runs, a first run exports
slug `s` in `python3` (file `s.py`) and a second, fresh run (the
in-memory set starts empty and the first accepted record has a new
timestamp) exports the same slug in `cpp` (file `s.cpp`).  Both files then
exist at once, so more than one canonical accepted file exists for the
identifier. -/
theorem C6_counterexample :
    (acceptedFilesForSlug "s"
      (runWithOutcomes allOk
        (freshRun (runWithOutcomes allOk (freshRun ⟨[], [], [], []⟩)
          [⟨"s", "python3", 1, "Accepted", "a"⟩]).1)
        [⟨"s", "cpp", 2, "Accepted", "b"⟩]).1.acceptedFiles).length = 2 := by
  decide

/-- C6 (amended): within a single run whose accepted directory initially
holds no file for the identifier (and no other slug in the feed yields a
file name owned by it), at most one accepted file for the identifier
exists at the end of the run — the file of the first accepted record
encountered whose detail file was not already on disk, carrying that
code of that record; across runs, accepted submissions in different languages
yield different file names for the same identifier, so several accepted
files for one identifier can coexist (see the counterexample). -/
theorem C6_single_run_unique (st0 : ScraperState) (subs : List Submission)
    (slug : String)
    (h0 : acceptedFilesForSlug slug st0.acceptedFiles = [])
    (hcoll : ∀ s ∈ subs, s.title_slug = slug ∨ slugOwns slug (fnameOf s) = false) :
    acceptedFilesForSlug slug
        (runWithOutcomes allOk (freshRun st0) subs).1.acceptedFiles
      = ftFile (firstTrigger slug (keysOf st0.detailFiles) subs)
    ∧ (acceptedFilesForSlug slug
        (runWithOutcomes allOk (freshRun st0) subs).1.acceptedFiles).length ≤ 1 := by
  have h := run_files_first slug subs (freshRun st0) (by simp) hcoll
  rw [freshRun_detailFiles, freshRun_acceptedFiles, h0, List.append_nil] at h
  refine ⟨h, ?_⟩
  rw [h]
  cases firstTrigger slug (keysOf st0.detailFiles) subs <;> simp [ftFile]

/-- Witness for C6 (amended): a single run with two accepted records for
slug `s` ends with exactly the trigger file `s.py` for the identifier. -/
theorem C6_witness :
    acceptedFilesForSlug "s"
        (runWithOutcomes allOk (freshRun ⟨[], [], [], []⟩)
          [⟨"s", "python3", 1, "Accepted", "a"⟩,
           ⟨"s", "cpp", 2, "Accepted", "b"⟩]).1.acceptedFiles
      = ftFile (firstTrigger "s"
          (keysOf ((⟨[], [], [], []⟩ : ScraperState)).detailFiles)
          [⟨"s", "python3", 1, "Accepted", "a"⟩,
           ⟨"s", "cpp", 2, "Accepted", "b"⟩])
    ∧ ftFile (firstTrigger "s"
          (keysOf ((⟨[], [], [], []⟩ : ScraperState)).detailFiles)
          [⟨"s", "python3", 1, "Accepted", "a"⟩,
           ⟨"s", "cpp", 2, "Accepted", "b"⟩])
        = [("s" ++ "." ++ "py", "a")] := by
  have h := C6_single_run_unique ⟨[], [], [], []⟩
    [⟨"s", "python3", 1, "Accepted", "a"⟩, ⟨"s", "cpp", 2, "Accepted", "b"⟩] "s"
    rfl (by decide)
  exact ⟨h.1, by decide⟩

/-- One pool worker executing `_process_submission` on one record, with a
program counter over the statements of the source: 0 = about to evaluate
`json_path.exists()`, 1 = about to write the detail file, 2 = about to
evaluate the condition of line 297 (status test and set membership), 3 =
about to run `self.accepted_slugs.add(...)` (line 298), 4 = about to
write the accepted file (lines 300-302), 5 = finished.  The condition
evaluation (2) and the set add (3) are separate steps, as they are
separate statements: the interpreter may switch threads between them. -/
structure WorkerState where
  sub : Submission
  pc : Nat
deriving DecidableEq

/-- One atomic step of a worker against the shared state. -/
def workerStep (st : ScraperState) (w : WorkerState) : ScraperState × WorkerState :=
  match w.pc with
  | 0 =>
    if (w.sub.title_slug, w.sub.timestamp) ∈ keysOf st.detailFiles then
      (st, { w with pc := 5 })
    else
      (st, { w with pc := 1 })
  | 1 =>
    ({ st with
       detailFiles := ((w.sub.title_slug, w.sub.timestamp), w.sub) :: st.detailFiles
       events := Event.detailWrite w.sub.title_slug w.sub.timestamp :: st.events },
     { w with pc := 2 })
  | 2 =>
    if w.sub.status = "Accepted" ∧ w.sub.title_slug ∉ st.accepted_slugs then
      (st, { w with pc := 3 })
    else
      (st, { w with pc := 5 })
  | 3 =>
    ({ st with accepted_slugs := addSlug st.accepted_slugs w.sub.title_slug },
     { w with pc := 4 })
  | 4 =>
    ({ st with
       acceptedFiles := (fnameOf w.sub, w.sub.code) :: st.acceptedFiles
       events := Event.acceptedWrite w.sub.title_slug (fnameOf w.sub) w.sub.code
         :: st.events },
     { w with pc := 5 })
  | _ => (st, w)

/-- Interleaved execution of two workers under an explicit schedule:
`false` steps the first worker, `true` the second (a finished
worker takes no-op steps). -/
def runSched :
    ScraperState → WorkerState → WorkerState → List Bool
      → ScraperState × WorkerState × WorkerState
  | st, a, b, [] => (st, a, b)
  | st, a, b, c :: rest =>
    if c then
      let s := workerStep st b
      runSched s.1 a s.2 rest
    else
      let s := workerStep st a
      runSched s.1 s.2 b rest

/-- C2 race, demonstrated: two accepted records for slug `s` (timestamps
1 and 2) on two workers.  Under the interleaving in which both workers
evaluate the set-membership condition of line 297 before either runs the
`add` of line 298, the run performs TWO accepted-export writes for the
slug; under a serialized schedule it performs one.  The membership check
and the add are not serialized by any lock in the source, so the claimed
single-writer discipline does not hold (the set itself still ends with a
single entry — Python set adds are idempotent — but the accepted-file
write is duplicated). -/
theorem C2_race :
    (acceptedEventsFor "s"
      (runSched ⟨[], [], [], []⟩
        ⟨⟨"s", "python3", 1, "Accepted", "x"⟩, 0⟩
        ⟨⟨"s", "python3", 2, "Accepted", "y"⟩, 0⟩
        [false, false, false, true, true, true,
         false, false, true, true]).1.events).length = 2
    ∧ (acceptedEventsFor "s"
      (runSched ⟨[], [], [], []⟩
        ⟨⟨"s", "python3", 1, "Accepted", "x"⟩, 0⟩
        ⟨⟨"s", "python3", 2, "Accepted", "y"⟩, 0⟩
        [false, false, false, false, false,
         true, true, true]).1.events).length = 1
    ∧ (runSched ⟨[], [], [], []⟩
        ⟨⟨"s", "python3", 1, "Accepted", "x"⟩, 0⟩
        ⟨⟨"s", "python3", 2, "Accepted", "y"⟩, 0⟩
        [false, false, false, true, true, true,
         false, false, true, true]).1.accepted_slugs = ["s"] := by
  refine ⟨?_, ?_, ?_⟩ <;> decide
